import Mathlib

/-!
Verification of the prequel-logmatch matching engine.

This file shallowly embeds the core of the `match` package: the term
predicate layer (`match.go`), the sequence matcher (`seq.go`), the two
inverse-sequence variants (`inverse_seq` sources), the shared reset
geometry and slot utilities, and the hits container.  Timestamps are
`Int` (Go `int64`; none of the verified properties depend on 64-bit
wraparound).  Go slices of asserts/observations become Lean lists; Go's
`map[int]int` duplicate table (nil lookups yield zero) becomes a total
function `Int → Nat`.  External libraries (gojq, regexp) enter as
parameters: a compile step is a function `String → Except Unit (String →
Bool)` supplied by the environment.
-/

namespace LogMatch

/-- `entry.LogEntry`: timestamp (int64 nanoseconds), line, stream. -/
structure LogEntry where
  timestamp : Int
  line : String
  stream : String := ""
  deriving Repr, DecidableEq, Inhabited

/-- `Hits` (hits.go): a count of groups and the flattened group logs.
The matchers embedded here never populate the `Props` bag, so it is
omitted from the embedding. -/
structure Hits where
  cnt : Nat := 0
  logs : List LogEntry := []
  deriving Repr, DecidableEq, Inhabited

/-- `anchorT` (slot utilities source): a consumed assert's timestamp
together with the slot (`term`) and offset inside the slot it came
from.  `term < 0` encodes Go's `anchorT{term: -1}` "no term" value. -/
structure AnchorT where
  clock : Int := 0
  term : Int := 0
  offset : Nat := 0
  deriving Repr, DecidableEq, Inhabited

/-- `anchorT.ValidTerm`. -/
def AnchorT.validTerm (a : AnchorT) : Bool := 0 ≤ a.term

/-- `termT`: a slot's predicate plus its chronologically ordered buffer
of captured entries. -/
structure TermSlot where
  matcher : String → Bool
  asserts : List LogEntry := []

/-- `resetT`: compiled reset term.  `observed` is the `resets []int64`
field: timestamps at which the reset predicate matched. -/
structure ResetSlot where
  matcher : String → Bool
  observed : List Int := []
  window : Int := 0
  slide : Int := 0
  anchor : Nat := 0
  absolute : Bool := false

/-- `resetT.calcWindowA`: reset interval over a dupe-expanded anchor
list.  Returns `(0, 0)` on an empty anchor list; otherwise slides the
anchor clock, widens by the pattern span unless absolute, clamps the
width at zero, and returns the closed interval bounds. -/
def ResetSlot.calcWindowA (r : ResetSlot) (anchors : List AnchorT) : Int × Int :=
  if anchors = [] then (0, 0)
  else
    let width0 := r.window
    let anchor := (anchors.getD r.anchor default).clock + r.slide
    let width1 := if r.absolute then width0
      else width0 + (anchors.getLastD default).clock - (anchors.headD default).clock
    let width := if width1 ≤ 0 then 0 else width1
    (anchor, anchor + width)

/-- `calcGCWindow`: worst-case left/right retention horizons derived
from the window and the reset specifications. -/
def calcGCWindow (window : Int) (resets : List ResetSlot) : Int × Int :=
  let step := fun (lr : Int × Int) (r : ResetSlot) =>
    let rRight := window + r.window + r.slide
    let right := if rRight > lr.2 then rRight else lr.2
    let left := if r.slide < lr.1 then r.slide else lr.1
    (left, right)
  let lr := resets.foldl step (0, window)
  (-1 * lr.1, lr.2)

/-- Substring containment on character lists; `hay.containsSeq needle`
is true iff `needle` occurs contiguously in `hay`.  Used to embed Go's
`strings.Contains`. -/
def containsSeq (hay needle : List Char) : Bool :=
  needle.isPrefixOf hay ||
    match hay with
    | [] => false
    | _ :: t => containsSeq t needle

/-- `makeRawMatch`: substring containment predicate. -/
def makeRawMatch (s : String) : String → Bool :=
  fun line => containsSeq line.data s.data

/-- `TermTypeT` (match.go): Raw = 0, Regex = 1, JqJson = 2, JqYaml = 3;
other integer values are unrecognised kinds. -/
structure TermTypeT where
  val : Int
  deriving Repr, DecidableEq, Inhabited

def TermRaw : TermTypeT := ⟨0⟩
def TermRegex : TermTypeT := ⟨1⟩
def TermJqJson : TermTypeT := ⟨2⟩
def TermJqYaml : TermTypeT := ⟨3⟩

/-- `TermT`: kind plus pattern value. -/
structure TermT where
  type : TermTypeT
  value : String
  deriving Repr, DecidableEq, Inhabited

/-- Construction errors of the match package. -/
inductive Err where
  | termEmpty
  | termType
  | termCompile
  | noTerms
  | tooManyTerms
  | anchorRange
  | anchorNoDupes
  deriving Repr, DecidableEq

/-- External compile steps (gojq parse+compile, regexp.Compile) are
parameters of the embedding: a compiler takes the pattern string and
either fails or yields a line predicate. -/
def CompileFn : Type := String → Except Unit (String → Bool)

/-- `TermT.NewMatcher`: reject an empty value first, then dispatch on
the kind; jq and regex kinds delegate to the external compilers and
wrap their failures in `ErrTermCompile`; unrecognised kinds give
`ErrTermType`. -/
def TermT.newMatcher (jq regex : CompileFn) (tt : TermT) :
    Except Err (String → Bool) :=
  if tt.value = "" then .error .termEmpty
  else if tt.type = TermJqJson ∨ tt.type = TermJqYaml then
    match jq tt.value with
    | .ok m => .ok m
    | .error _ => .error .termCompile
  else if tt.type = TermRegex then
    match regex tt.value with
    | .ok m => .ok m
    | .error _ => .error .termCompile
  else if tt.type = TermRaw then .ok (makeRawMatch tt.value)
  else .error .termType

/-- `maxTerms`: bitmask width. -/
def maxTerms : Nat := 64

/-- `disableGC`: max int64. -/
def disableGC : Int := 2 ^ 63 - 1

/-- `shiftLeft(terms, idx, cnt)` drops the first `cnt` asserts of slot
`idx`.  (The Go function additionally manages buffer capacity, which
has no observable effect on the retained entries.) -/
def shiftLeftSlot (cnt : Nat) (sl : TermSlot) : TermSlot :=
  { sl with asserts := sl.asserts.drop cnt }

/-- `resetTerm`: clear a slot's asserts. -/
def resetSlot (sl : TermSlot) : TermSlot :=
  { sl with asserts := [] }

/-- In-place update of the `idx`-th slot, mirroring Go's mutation of
`terms[idx]`. -/
def modifySlot (f : TermSlot → TermSlot) : List TermSlot → Nat → List TermSlot
  | [], _ => []
  | a :: t, 0 => f a :: t
  | a :: t, n + 1 => a :: modifySlot f t n

/-- `shiftLeft` over the slot list. -/
def shiftLeft (terms : List TermSlot) (idx cnt : Nat) : List TermSlot :=
  modifySlot (shiftLeftSlot cnt) terms idx

/-- `shiftAnchor(terms, drop)`: remove the specific assert identified by
an anchor — the slot's head when the offset is zero, otherwise the
assert at that offset inside the slot. -/
def shiftAnchor (terms : List TermSlot) (drop : AnchorT) : List TermSlot :=
  if drop.offset = 0 then shiftLeft terms drop.term.toNat 1
  else modifySlot (fun sl => { sl with asserts := sl.asserts.eraseIdx drop.offset })
    terms drop.term.toNat

/-- Boolean non-decreasing check on timestamps (the documented invariant
of `asserts` buffers). -/
def sortedTs : List Int → Bool
  | [] => true
  | [_] => true
  | a :: b :: t => decide (a ≤ b) && sortedTs (b :: t)

/-- The specification's reset-geometry formula (§4.5 of the spec),
written independently of the code for the refinement claim C5:
`anchor_clock = anchors[reset.anchor].clock + reset.slide`,
`width = reset.window + (absolute ? 0 : last − first)`,
`width = max(width, 0)`, interval `(anchor_clock, anchor_clock + width)`. -/
def specResetInterval (r : ResetSlot) (anchors : List AnchorT) : Int × Int :=
  let anchorClock := (anchors.getD r.anchor default).clock + r.slide
  let width := r.window +
    (if r.absolute then 0 else (anchors.getLastD default).clock - (anchors.headD default).clock)
  (anchorClock, anchorClock + max width 0)

/-- `InverseSeq` state (dupe-aware variant with `dupeMap`): ordered
sequence matcher with reset terms and deferred evaluation.  `dupeMap`
embeds Go's `map[int]int` (missing keys read as 0); index `-1` caches
the total dupe surplus. -/
structure InvState where
  clock : Int := 0
  window : Int
  gcMark : Int := disableGC
  gcLeft : Int := 0
  gcRight : Int := 0
  nActive : Nat := 0
  terms : List TermSlot
  resets : List ResetSlot := []
  dupeMap : Int → Nat := fun _ => 0

/-- Total asserts currently buffered (used as fuel for the `_eval`
loop, which removes at least one assert per iteration). -/
def InvState.totalAsserts (s : InvState) : Nat :=
  (s.terms.map (fun t => t.asserts.length)).sum

/-- Head slot's asserts (slot 0 always exists after construction). -/
def InvState.zeroAsserts (s : InvState) : List LogEntry :=
  (s.terms.headD ⟨fun _ => false, []⟩).asserts

/-- `InverseSeq.reset`: clear every slot and deactivate. -/
def InvState.resetAll (s : InvState) : InvState :=
  { s with terms := s.terms.map resetSlot, nActive := 0 }

/-- Inner loop of `InverseSeq.miniGC` for slots `1 .. nActive-1`:
drop asserts older than the running `zeroMatch` mark, advance the mark
to the first kept timestamp, extend `nActive` while each slot keeps
more asserts than its dupe requirement, force-clearing the rest. -/
def miniGCCount (l : List LogEntry) (zeroMatch : Int) : Nat × Int :=
  match l with
  | [] => (0, zeroMatch)
  | a :: t =>
    if a.timestamp < zeroMatch then
      let (c, z) := miniGCCount t zeroMatch
      (c + 1, z)
    else (0, a.timestamp)

def miniGCAux (dupeMap : Int → Nat) (idx : Nat) (zeroMatch : Int)
    (forceClear : Bool) (nActive : Nat) :
    List TermSlot → Nat → List TermSlot × Nat
  | rest, 0 => (rest, nActive)
  | [], _ => ([], nActive)
  | sl :: t, remaining + 1 =>
    if forceClear then
      let (t', n') := miniGCAux dupeMap (idx + 1) zeroMatch true nActive t remaining
      (resetSlot sl :: t', n')
    else
      let (cnt, zeroMatch') := miniGCCount sl.asserts zeroMatch
      let sl' := shiftLeftSlot cnt sl
      if sl'.asserts.length > dupeMap idx then
        let (t', n') := miniGCAux dupeMap (idx + 1) zeroMatch' false (nActive + 1) t remaining
        (sl' :: t', n')
      else
        let (t', n') := miniGCAux dupeMap (idx + 1) zeroMatch' true nActive t remaining
        (sl' :: t', n')

/-- `InverseSeq.miniGC`: realign slots `1..nActive-1` on slot 0's first
assert and recompute `nActive`; clears everything when slot 0 is
empty. -/
def InvState.miniGC (s : InvState) : InvState :=
  match s.terms with
  | [] => s
  | sl0 :: rest =>
    match sl0.asserts with
    | [] => s.resetAll
    | e0 :: _ =>
      let dupeCnt := s.dupeMap 0
      let (nActive0, forceClear) :=
        if sl0.asserts.length > dupeCnt then (1, false) else (0, true)
      let (rest', nActive) :=
        miniGCAux s.dupeMap 1 e0.timestamp forceClear nActive0 rest (s.nActive - 1)
      { s with terms := sl0 :: rest', nActive := nActive }

/-- Dupe-expanded anchor list of `InverseSeq.checkReset`: one anchor per
consumed assert, slot index plus offset.  (Frame completeness
guarantees each slot holds at least `dupeMap i + 1` asserts; `getD` is
the totalization of the Go indexing.) -/
def mkAnchorsAux (dupeMap : Int → Nat) (i : Nat) : List TermSlot → List AnchorT
  | [] => []
  | sl :: t =>
    ((List.range (dupeMap i + 1)).map fun j =>
      ⟨(sl.asserts.getD j default).timestamp, (i : Int), j⟩) ++
    mkAnchorsAux dupeMap (i + 1) t

def InvState.mkAnchors (s : InvState) : List AnchorT :=
  mkAnchorsAux s.dupeMap 0 s.terms

/-- Reset scan of `InverseSeq.checkReset`: for each reset in order,
an observation inside the closed interval `[start, stop]` yields the
offending anchor; a window still open (`stop ≥ clock`) yields the
"wait" result `{term: -1, clock: stop − clock + 1}`; otherwise continue.
The empty tail yields the pass result `{term: -1, clock: 0}`. -/
def checkResetAux (anchors : List AnchorT) (clock : Int) :
    List ResetSlot → AnchorT
  | [] => ⟨0, -1, 0⟩
  | r :: rs =>
    let w := r.calcWindowA anchors
    if r.observed.any (fun ts => decide (w.1 ≤ ts) && decide (ts ≤ w.2)) then
      anchors.getD r.anchor default
    else if w.2 ≥ clock then ⟨w.2 - clock + 1, -1, 0⟩
    else checkResetAux anchors clock rs

def InvState.checkReset (s : InvState) (clock : Int) : AnchorT :=
  checkResetAux s.mkAnchors clock s.resets

/-- Decision taken by one iteration of the `InverseSeq._eval` loop. -/
inductive EvalStepR where
  | noFrame
  | drop (a : AnchorT)
  | wait
  | fire
  deriving Repr, DecidableEq

/-- One iteration of `InverseSeq._eval`'s loop head: no complete frame
exits the loop; a window violation drops slot 0's head; otherwise the
reset check may drop an anchor, wait on an open reset window, or let
the frame fire. -/
def InvState.evalStep (s : InvState) (clock : Int) : EvalStepR :=
  if s.nActive ≠ s.terms.length then .noFrame
  else
    let nTerms := s.terms.length
    let dupeCnt := s.dupeMap ((nTerms : Int) - 1)
    let tStart := (s.zeroAsserts.getD 0 default).timestamp
    let tStop := (((s.terms.getLastD ⟨fun _ => false, []⟩).asserts).getD dupeCnt
      default).timestamp
    if tStop - tStart > s.window then .drop ⟨0, 0, 0⟩
    else if s.resets.isEmpty then .fire
    else
      let anchor := s.checkReset clock
      if anchor.validTerm then .drop anchor
      else if anchor.clock > 0 then .wait
      else .fire

/-- Firing branch of `InverseSeq._eval`: emit the first
`dupeMap i + 1` asserts of every slot as the hit group and shift them
all out. -/
def fireAux (dupeMap : Int → Nat) (i : Nat) :
    List TermSlot → List LogEntry × List TermSlot
  | [] => ([], [])
  | sl :: t =>
    let hitCnt := dupeMap i + 1
    let (g, t') := fireAux dupeMap (i + 1) t
    (sl.asserts.take hitCnt ++ g, shiftLeftSlot hitCnt sl :: t')

def InvState.applyFire (s : InvState) : List LogEntry × InvState :=
  let (g, terms') := fireAux s.dupeMap 0 s.terms
  (g, { s with terms := terms' })

/-- `InverseSeq._eval` loop, fuelled: each iteration either exits,
drops one assert (negative match), or fires and prunes a full frame,
then fixes state with `miniGC`. -/
def evalLoop (clock : Int) : Nat → InvState → Hits → InvState × Hits
  | 0, s, hits => (s, hits)
  | fuel + 1, s, hits =>
    match s.evalStep clock with
    | .noFrame => (s, hits)
    | .wait => (s, hits)
    | .drop a => evalLoop clock fuel (InvState.miniGC { s with terms := shiftAnchor s.terms a }) hits
    | .fire =>
      let (g, s') := s.applyFire
      evalLoop clock fuel s'.miniGC { cnt := hits.cnt + 1, logs := hits.logs ++ g }

def InvState.evalAt (s : InvState) (clock : Int) : InvState × Hits :=
  evalLoop clock (s.totalAsserts + 1) s {}

/-- `InverseSeq.Eval`: a no-op when `clock ≤ r.clock`, otherwise
advance the clock and run the deferred evaluation. -/
def InvState.evalGo (s : InvState) (clock : Int) : InvState × Hits :=
  if clock ≤ s.clock then (s, {})
  else InvState.evalAt { s with clock := clock } clock

/-- Leading asserts strictly older than the deadline (the linear scan
of `GarbageCollect` over slot 0). -/
def countLeadingOld (l : List LogEntry) (deadline : Int) : Nat :=
  match l with
  | [] => 0
  | a :: t => if a.timestamp < deadline then countLeadingOld t deadline + 1 else 0

/-- Position of the first element `≥ d`; on a sorted list this is what
`slices.BinarySearch(m, d)` returns (the count of elements `< d`). -/
def firstGeIdx (l : List Int) (d : Int) : Nat :=
  match l with
  | [] => 0
  | a :: t => if a < d then firstGeIdx t d + 1 else 0

/-- `resetGcMark`: lower the GC mark. -/
def InvState.resetGcMark (s : InvState) (nMark : Int) : InvState :=
  if nMark < s.gcMark then { s with gcMark := nMark } else s

/-- `InverseSeq.GarbageCollect`: when every slot is hot and resets
exist, defer entirely (disable the mark); otherwise prune slot 0 up to
`clock − gcRight`, realign with `miniGC`, prune each reset's
observations up to `clock − gcRight − gcLeft`, and recompute the
mark. -/
def InvState.gcPruneZero (s : InvState) (clock : Int) : InvState :=
  { s with terms := shiftLeft s.terms 0 (countLeadingOld s.zeroAsserts (clock - s.gcRight)) }

/-- Normal path of `GarbageCollect`: prune slot 0 up to
`clock − gcRight`, realign with `miniGC`, prune each reset's
observations up to `clock − gcRight − gcLeft` and recompute the
mark. -/
def InvState.gcNormal (s : InvState) (clock : Int) : InvState :=
  let s2 := (s.gcPruneZero clock).miniGC
  let nMark := if s2.nActive > 0 then
    (s2.zeroAsserts.getD 0 default).timestamp + s.gcRight else disableGC
  let deadline2 := clock - s.gcRight - s.gcLeft
  let resets' := s2.resets.map fun r =>
    { r with observed := r.observed.drop (firstGeIdx r.observed deadline2) }
  let nMark' := resets'.foldl (fun m r =>
    match r.observed with
    | [] => m
    | t0 :: _ => if t0 + s.gcLeft + s.gcRight < m then t0 + s.gcLeft + s.gcRight else m) nMark
  { s2 with resets := resets', gcMark := nMark' }

def InvState.garbageCollect (s : InvState) (clock : Int) : InvState :=
  if s.nActive = s.terms.length ∧ s.resets.isEmpty = false then
    { s with gcMark := disableGC }
  else s.gcNormal clock

/-- `maybeGC`: run GC only once the clock reaches the mark. -/
def InvState.maybeGC (s : InvState) (clock : Int) : InvState :=
  if clock < s.gcMark then s else s.garbageCollect clock

/-- The overlap pass of `Scan`: append the entry to each of the first
`nActive` slots whose predicate matches. -/
def scanActives (e : LogEntry) : List TermSlot → Nat → List TermSlot
  | [], _ => []
  | rest, 0 => rest
  | sl :: t, n + 1 =>
    (if sl.matcher e.line then { sl with asserts := sl.asserts ++ [e] } else sl) ::
      scanActives e t n

/-- The reset pass of `Scan`: record the entry's timestamp on each
matching reset slot; reports whether any matched (each match lowers the
GC mark to the same `timestamp + gcLeft + gcRight` value). -/
def runResets (e : LogEntry) : List ResetSlot → List ResetSlot × Bool
  | [] => ([], false)
  | r :: rs =>
    let (rs', any') := runResets e rs
    if r.matcher e.line then ({ r with observed := r.observed ++ [e.timestamp] } :: rs', true)
    else (r :: rs', any')

/-- `InverseSeq.Scan` (dupe-aware variant): drop out-of-order entries,
advance the clock, maybe GC, apply the zero-match shortcut, record
resets, run the overlap pass, then try to advance the pursued slot
honouring its dupe requirement; on a full frame run the deferred
evaluation loop. -/
def InvState.scanAdvance (s3 : InvState) (e : LogEntry) (zeroMatch : Bool) :
    InvState × Hits :=
  if !zeroMatch && !((s3.terms.getD s3.nActive ⟨fun _ => false, []⟩).matcher e.line)
  then (s3, {})
  else
    let app := fun sl : TermSlot => { sl with asserts := sl.asserts ++ [e] }
    let s4 := { s3 with terms := modifySlot app s3.terms s3.nActive }
    let s5 := s4.resetGcMark (e.timestamp + s4.gcRight)
    let dupeCnt : Nat := s5.dupeMap (Int.ofNat s5.nActive)
    let activeLen : Nat := (s5.terms.getD s5.nActive ⟨fun _ => false, []⟩).asserts.length
    if activeLen ≤ dupeCnt then (s5, {})
    else
      let s6 := { s5 with nActive := s5.nActive + 1 }
      if s6.nActive < s6.terms.length then (s6, {})
      else s6.evalAt e.timestamp

def InvState.scan (s0 : InvState) (e : LogEntry) : InvState × Hits :=
  if e.timestamp < s0.clock then (s0, {})
  else
    let s1 := InvState.maybeGC { s0 with clock := e.timestamp } e.timestamp
    -- Zero-match optimization: with no slot-0 asserts, no lookback
    -- (gcLeft = 0) and a first-slot miss, return without touching resets.
    let m0 := (s1.terms.headD ⟨fun _ => false, []⟩).matcher e.line
    let zeroMatch := s1.zeroAsserts.isEmpty && decide (s1.gcLeft ≤ 0)
    if zeroMatch && !m0 then (s1, {})
    else
      let (resets', anyReset) := runResets e s1.resets
      let s2 :=
        if anyReset then
          InvState.resetGcMark { s1 with resets := resets' }
            (e.timestamp + s1.gcLeft + s1.gcRight)
        else { s1 with resets := resets' }
      let s3 := { s2 with terms := scanActives e s2.terms s2.nActive }
      if s3.nActive < s3.terms.length then s3.scanAdvance e zeroMatch
      else s3.evalAt e.timestamp

/-- `ResetT`: reset specification. -/
structure ResetT where
  term : TermT
  window : Int := 0
  slide : Int := 0
  anchor : Nat := 0
  absolute : Bool := false
  deriving Repr, DecidableEq, Inhabited

/-- Accumulating fold of `buildSeqTerms`: collapse consecutive
identical terms into one slot, counting the surplus occurrences in the
dupe map. -/
def buildSeqTermsAux (nm : TermT → Except Err (String → Bool)) :
    List TermT → Int → TermT → List TermSlot → (Int → Nat) → Nat →
    Except Err (List TermSlot × (Int → Nat) × Nat)
  | [], _, _, slots, dm, dsum => .ok (slots, dm, dsum)
  | t :: rest, i, lastTerm, slots, dm, dsum =>
    if i = -1 ∨ t ≠ lastTerm then
      match nm t with
      | .error e => .error e
      | .ok m => buildSeqTermsAux nm rest (i + 1) t (slots ++ [⟨m, []⟩]) dm dsum
    else
      buildSeqTermsAux nm rest i lastTerm slots
        (fun j => if j = i then dm j + 1 else dm j) (dsum + 1)

/-- `buildSeqTerms`: reject an empty term list, collapse adjacent
dupes, compile each distinct slot, and only then reject more than
`maxTerms` slots; stuff the dupe total at key `-1`.  Returns the slots,
the dupe map and whether any dupes were found (Go: `dupeMap != nil`). -/
def buildSeqTerms (nm : TermT → Except Err (String → Bool)) (seqTerms : List TermT) :
    Except Err (List TermSlot × (Int → Nat) × Bool) :=
  if seqTerms.isEmpty then .error .noTerms
  else
    match buildSeqTermsAux nm seqTerms (-1) default [] (fun _ => 0) 0 with
    | .error e => .error e
    | .ok (slots, dm, dsum) =>
      if slots.length > maxTerms then .error .tooManyTerms
      else .ok (slots,
        (if dsum > 0 then fun j => if j = -1 then dsum else dm j else dm),
        decide (dsum > 0))

/-- `maybeAnchor` walk: is the (non-zero) anchor position the first
occurrence of its slot rather than inside a dupe run? -/
def maybeAnchorAux (dm : Int → Nat) (anchor : Nat) : Nat → Nat → Nat → Bool
  | _, _, 0 => false
  | i, curOff, rem + 1 =>
    let c1 := curOff + 1
    if anchor < c1 then true
    else
      let c2 := c1 + dm (i : Int)
      if anchor < c2 then false
      else maybeAnchorAux dm anchor (i + 1) c2 rem

/-- `maybeAnchor`: zero anchors and dupe-free patterns always pass. -/
def maybeAnchor (nTerms : Nat) (hasDupes : Bool) (dm : Int → Nat) (anchor : Nat) : Bool :=
  if !hasDupes || anchor = 0 then true
  else maybeAnchorAux dm anchor 0 0 nTerms

/-- Reset compilation loop of `NewInverseSeq` (dupe-aware variant):
compile each reset term, validate the anchor against the raw term count
and against dupe runs. -/
def buildResets (nm : TermT → Except Err (String → Bool)) (nSeqTerms nTerms : Nat)
    (hasDupes : Bool) (dm : Int → Nat) :
    List ResetT → Except Err (List ResetSlot)
  | [] => .ok []
  | rt :: rest =>
    match nm rt.term with
    | .error e => .error e
    | .ok m =>
      if rt.anchor ≥ nSeqTerms then .error .anchorRange
      else if !maybeAnchor nTerms hasDupes dm rt.anchor then .error .anchorNoDupes
      else
        match buildResets nm nSeqTerms nTerms hasDupes dm rest with
        | .error e => .error e
        | .ok rs => .ok (⟨m, [], rt.window, rt.slide, rt.anchor, rt.absolute⟩ :: rs)

/-- `NewInverseSeq` (dupe-aware variant): build the sequence slots,
compile and validate the resets, derive the GC horizons. -/
def newInverseSeq (nm : TermT → Except Err (String → Bool)) (window : Int)
    (seqTerms : List TermT) (resetTerms : List ResetT) : Except Err InvState :=
  match buildSeqTerms nm seqTerms with
  | .error e => .error e
  | .ok (terms, dm, hasDupes) =>
    match buildResets nm seqTerms.length terms.length hasDupes dm resetTerms with
    | .error e => .error e
    | .ok resets =>
      let (gcLeft, gcRight) := calcGCWindow window resets
      .ok { window := window, gcLeft := gcLeft, gcRight := gcRight,
            gcMark := disableGC, terms := terms, resets := resets, dupeMap := dm }

/-- `MatchSeq` state (seq.go): ordered matcher without resets. -/
structure SeqState where
  clock : Int := 0
  window : Int
  nActive : Nat := 0
  terms : List TermSlot
  dupeMap : Int → Nat := fun _ => 0

def SeqState.zeroAsserts (s : SeqState) : List LogEntry :=
  (s.terms.headD ⟨fun _ => false, []⟩).asserts

/-- `MatchSeq.reset`. -/
def SeqState.resetAll (s : SeqState) : SeqState :=
  { s with terms := s.terms.map resetSlot, nActive := 0 }

/-- Inner loop of `MatchSeq.miniGC` (fixed `zeroMatch` mark, unlike the
inverse variant): drop leading asserts older than slot 0's
`dupeMap[0]`-th assert, keep `nActive` contiguous. -/
def seqMiniGCAux (dupeMap : Int → Nat) (idx : Nat) (zeroMatch : Int)
    (forceClear : Bool) (nActive : Nat) :
    List TermSlot → Nat → List TermSlot × Nat
  | rest, 0 => (rest, nActive)
  | [], _ => ([], nActive)
  | sl :: t, remaining + 1 =>
    if forceClear then
      let (t', n') := seqMiniGCAux dupeMap (idx + 1) zeroMatch true nActive t remaining
      (resetSlot sl :: t', n')
    else
      let cnt := countLeadingOld sl.asserts zeroMatch
      let sl' := shiftLeftSlot cnt sl
      if sl'.asserts.length > dupeMap (Int.ofNat idx) then
        let (t', n') := seqMiniGCAux dupeMap (idx + 1) zeroMatch false (nActive + 1) t remaining
        (sl' :: t', n')
      else
        let (t', n') := seqMiniGCAux dupeMap (idx + 1) zeroMatch true nActive t remaining
        (sl' :: t', n')

/-- `MatchSeq.miniGC`: clear all if slot 0 is empty; otherwise anchor
on slot 0's `dupeMap[0]`-th assert and realign slots `1..nActive-1`. -/
def SeqState.miniGC (s : SeqState) : SeqState :=
  match s.terms with
  | [] => s
  | sl0 :: rest =>
    if sl0.asserts.isEmpty then s.resetAll
    else
      let zeroDupes := s.dupeMap 0
      if sl0.asserts.length < zeroDupes + 1 then
        let (rest', nActive) := seqMiniGCAux s.dupeMap 1 0 true 0 rest (s.nActive - 1)
        { s with terms := sl0 :: rest', nActive := nActive }
      else
        let zeroMatch := (sl0.asserts.getD zeroDupes default).timestamp
        let (rest', nActive) := seqMiniGCAux s.dupeMap 1 zeroMatch false 1 rest (s.nActive - 1)
        { s with terms := sl0 :: rest', nActive := nActive }

/-- `MatchSeq.GarbageCollect`: prune slot 0 below `clock − window`,
then `miniGC`. -/
def SeqState.garbageCollect (s : SeqState) (clock : Int) : SeqState :=
  let cnt := countLeadingOld s.zeroAsserts (clock - s.window)
  SeqState.miniGC { s with terms := shiftLeft s.terms 0 cnt }

/-- `MatchSeq.maybeGC`: lazy — skip while inactive or slot 0's first
assert is still inside the window. -/
def SeqState.maybeGC (s : SeqState) (clock : Int) : SeqState :=
  if s.nActive = 0 ∨ clock - (s.zeroAsserts.getD 0 default).timestamp < s.window then s
  else s.garbageCollect clock

/-- Firing branch of `MatchSeq.Scan`: slots `0..n-2` contribute their
`dupeMap[i]+1` leading asserts but only shift out one; the final slot
contributes its `dupeMap` dupes plus the triggering entry. -/
def seqFireAux (dupeMap : Int → Nat) (i : Nat) :
    List TermSlot → List LogEntry × List TermSlot
  | [] => ([], [])
  | [sl] => ([], [sl])
  | sl :: t =>
    let hitCnt := dupeMap (Int.ofNat i) + 1
    let (g, t') := seqFireAux dupeMap (i + 1) t
    (sl.asserts.take hitCnt ++ g, shiftLeftSlot 1 sl :: t')

def SeqState.applyFire (s : SeqState) (e : LogEntry) (dupeCnt : Nat) :
    List LogEntry × SeqState :=
  let (g0, terms') := seqFireAux s.dupeMap 0 s.terms
  let lastIdx := s.nActive
  let lastSlot := terms'.getD lastIdx ⟨fun _ => false, []⟩
  if dupeCnt > 0 then
    (g0 ++ lastSlot.asserts.take dupeCnt ++ [e], { s with terms := shiftLeft terms' lastIdx 1 })
  else
    (g0 ++ [e], { s with terms := terms' })

/-- `MatchSeq.Scan`: drop out-of-order, advance clock, maybe GC, run
the overlap pass, then try the active slot; a full frame fires and is
pruned, leaving remaining dupes for overlapping hits. -/
def SeqState.scan (s0 : SeqState) (e : LogEntry) : SeqState × Hits :=
  if e.timestamp < s0.clock then (s0, {})
  else
    let s1 := SeqState.maybeGC { s0 with clock := e.timestamp } e.timestamp
    let s2 := { s1 with terms := scanActives e s1.terms s1.nActive }
    if !((s2.terms.getD s2.nActive ⟨fun _ => false, []⟩).matcher e.line) then (s2, {})
    else
      let dupeCnt : Nat := s2.dupeMap (Int.ofNat s2.nActive)
      let activeLen : Nat := (s2.terms.getD s2.nActive ⟨fun _ => false, []⟩).asserts.length
      if activeLen < dupeCnt then
        let app := fun sl : TermSlot => { sl with asserts := sl.asserts ++ [e] }
        ({ s2 with terms := modifySlot app s2.terms s2.nActive }, {})
      else if s2.nActive + 1 < s2.terms.length then
        let app := fun sl : TermSlot => { sl with asserts := sl.asserts ++ [e] }
        ({ s2 with terms := modifySlot app s2.terms s2.nActive, nActive := s2.nActive + 1 }, {})
      else
        let (g, s3) := s2.applyFire e dupeCnt
        let s4 := SeqState.miniGC { s3 with nActive := s3.nActive + 1 }
        (s4, { cnt := 1, logs := g })

/-- `MatchSeq.Eval`: edge triggered, never fires and never mutates. -/
def SeqState.evalGo (s : SeqState) (_clock : Int) : SeqState × Hits := (s, {})

/-- `NewMatchSeq`. -/
def newMatchSeq (nm : TermT → Except Err (String → Bool)) (window : Int)
    (seqTerms : List TermT) : Except Err SeqState :=
  match buildSeqTerms nm seqTerms with
  | .error e => .error e
  | .ok (terms, dm, _) => .ok { window := window, terms := terms, dupeMap := dm }

/-- `InverseSeq` state, dupeMask variant: the earlier implementation
with a 64-bit duplicate mask instead of the dupe map. -/
structure InvState2 where
  clock : Int := 0
  window : Int
  gcMark : Int := disableGC
  gcLeft : Int := 0
  gcRight : Int := 0
  nActive : Nat := 0
  dupeMask : Nat := 0
  terms : List TermSlot
  resets : List ResetSlot := []

/-- Modelled from the spec: `resetT.calcWindow`, the reset geometry
over the per-slot first timestamps used by the dupeMask variant's
`checkReset`, is not among the provided sources (only its caller is).
Per §4.5: `anchor_clock = stamps[reset.anchor] + reset.slide`;
`width = reset.window + (absolute ? 0 : last − first)`;
`width = max(width, 0)`; interval `(anchor_clock, anchor_clock +
width)`. -/
def ResetSlot.calcWindow (r : ResetSlot) (stamps : List Int) : Int × Int :=
  if stamps = [] then (0, 0)
  else
    let anchor := stamps.getD r.anchor 0 + r.slide
    let width0 := r.window + (if r.absolute then 0 else stamps.getLastD 0 - stamps.headD 0)
    (anchor, anchor + max width0 0)

/-- `InverseSeq.checkReset` (dupeMask variant): scan the resets over
the per-slot first timestamps; Go returns `(retryNanos, anchor)` with
`math.MaxUint8` as the "no anchor" sentinel, embedded as `Option`. -/
def checkReset2Aux (stamps : List Int) (clock : Int) :
    List ResetSlot → Int × Option Nat
  | [] => (0, none)
  | r :: rs =>
    let w := r.calcWindow stamps
    if r.observed.any (fun ts => decide (w.1 ≤ ts) && decide (ts ≤ w.2)) then
      (0, some r.anchor)
    else if w.2 ≥ clock then (w.2 - clock + 1, none)
    else checkReset2Aux stamps clock rs

def InvState2.stamps (s : InvState2) : List Int :=
  s.terms.map fun sl => (sl.asserts.getD 0 default).timestamp

def InvState2.checkReset (s : InvState2) (clock : Int) : Int × Option Nat :=
  checkReset2Aux s.stamps clock s.resets

/-- Decision of one iteration of the dupeMask variant's `_eval` loop:
window violation drops slot 0's head, a reset observation in window
drops the offending anchor slot's head, an open reset window waits,
otherwise the frame fires (first assert of every slot). -/
inductive EvalStep2R where
  | noFrame
  | drop (i : Nat)
  | wait
  | fire
  deriving Repr, DecidableEq

def InvState2.evalStep (s : InvState2) (clock : Int) : EvalStep2R :=
  if s.nActive ≠ s.terms.length then .noFrame
  else
    let tStart := ((s.terms.headD ⟨fun _ => false, []⟩).asserts.getD 0 default).timestamp
    let tStop := ((s.terms.getLastD ⟨fun _ => false, []⟩).asserts.getD 0 default).timestamp
    if tStop - tStart > s.window then .drop 0
    else if s.resets.isEmpty then .fire
    else
      let ra := s.checkReset clock
      match ra.2 with
      | some a => .drop a
      | none => if ra.1 > 0 then .wait else .fire

/-- `InverseSeq.Eval` guard (both variants share it): nothing happens
for a clock at or behind the current one. -/
def InvState2.evalGuard (s : InvState2) (clock : Int) : Bool :=
  decide (clock ≤ s.clock)

/-- `NewInverseSeq` (dupeMask variant) helpers and constructor, in
source order: too many raw terms, then no terms, then per-term
compilation and the dupe mask, then resets with the anchor-range check
only. -/
def compileAllTerms (nm : TermT → Except Err (String → Bool)) :
    List TermT → Except Err (List TermSlot)
  | [] => .ok []
  | t :: rest =>
    match nm t with
    | .error e => .error e
    | .ok m =>
      match compileAllTerms nm rest with
      | .error e => .error e
      | .ok slots => .ok (⟨m, []⟩ :: slots)

/-- Reset compilation loop of the dupeMask variant: only the
anchor-range check (no dupe-anchor restriction). -/
def buildResets2 (nm : TermT → Except Err (String → Bool)) (nSeqTerms : Nat) :
    List ResetT → Except Err (List ResetSlot)
  | [] => .ok []
  | rt :: rest =>
    match nm rt.term with
    | .error e => .error e
    | .ok m =>
      if rt.anchor ≥ nSeqTerms then .error .anchorRange
      else
        match buildResets2 nm nSeqTerms rest with
        | .error e => .error e
        | .ok rs => .ok (⟨m, [], rt.window, rt.slide, rt.anchor, rt.absolute⟩ :: rs)

def newInverseSeq2 (nm : TermT → Except Err (String → Bool)) (window : Int)
    (seqTerms : List TermT) (resetTerms : List ResetT) : Except Err InvState2 :=
  if seqTerms.length > maxTerms then .error .tooManyTerms
  else if seqTerms.length = 0 then .error .noTerms
  else
    let dupes := fun t => (seqTerms.filter (fun u => u = t)).length
    match compileAllTerms nm seqTerms with
    | .error e => .error e
    | .ok terms =>
      let mask := (List.range seqTerms.length).foldl
        (fun acc i => if dupes (seqTerms.getD i default) > 1 then acc + 2 ^ i else acc) 0
      match buildResets2 nm seqTerms.length resetTerms with
      | .error e => .error e
      | .ok resets =>
        let (gcLeft, gcRight) := calcGCWindow window resets
        .ok { window := window, gcLeft := gcLeft, gcRight := gcRight,
              gcMark := disableGC, dupeMask := mask, terms := terms, resets := resets }

/-- `MatchSet` state (set.go).  Only the `Eval` behaviour of the set
matcher is needed by the verified claims; the full scan machinery is
not embedded. -/
structure SetState where
  clock : Int := 0
  window : Int
  gcMark : Int := disableGC
  terms : List TermSlot
  hotMask : Nat := 0
  dupeMap : Int → Nat := fun _ => 0

/-- `MatchSet.Eval`: edge triggered, never fires and never mutates. -/
def SetState.evalGo (s : SetState) (_clock : Int) : SetState × Hits := (s, {})

/-- Modelled from the spec: the single matcher (`MatchSingle`) is not
among the provided sources (only its tests and callers are).  Per
§4.6 its `Eval` never fires and touches no state. -/
structure SingleState where
  clock : Int := 0
  matcher : String → Bool

def SingleState.evalGo (s : SingleState) (_clock : Int) : SingleState × Hits := (s, {})

/-- Abstract value produced by a jq program output: `null`, a boolean,
or any other (non-null, non-boolean) value. -/
inductive JqVal where
  | null
  | bool (b : Bool)
  | other
  deriving Repr, DecidableEq

/-- Truthiness used by `_makeJqMatch`: non-null, and a boolean must be
`true`. -/
def JqVal.truthy : JqVal → Bool
  | .null => false
  | .bool b => b
  | .other => true

/-- One item yielded by the compiled jq program's iterator: a value, a
`*gojq.HaltError` carrying no value, or any other error (including a
halt carrying a value). -/
inductive JqOut where
  | val (v : JqVal)
  | errHaltNoValue
  | errRuntime
  deriving Repr, DecidableEq

def JqOut.truthyOut : JqOut → Bool
  | .val v => v.truthy
  | _ => false

/-- The iteration loop of `_makeJqMatch` over the program outputs,
carrying the `match` accumulator: a halt-with-no-value stops and keeps
the accumulator; any other error stops with `false`; a value output
turns the accumulator on when truthy. -/
def jqIterate : List JqOut → Bool → Bool
  | [], m => m
  | .val v :: t, m => jqIterate t (m || v.truthy)
  | .errHaltNoValue :: _, m => m
  | .errRuntime :: _, _ => false

/-- `_makeJqMatch` body: a document parse failure is an immediate
non-match; otherwise iterate the outputs. -/
def jqMatchRun (parseOk : Bool) (outs : List JqOut) : Bool :=
  if parseOk then jqIterate outs false else false

/-- The claim's verdict for C9: at least one truthy output anywhere. -/
def jqClaimAnyTruthy (outs : List JqOut) : Bool :=
  outs.any JqOut.truthyOut

/-- Outputs strictly before the first error of either kind. -/
def jqValuesBeforeErr : List JqOut → List JqOut
  | [] => []
  | .val v :: t => .val v :: jqValuesBeforeErr t
  | _ => []

/-- Whether the first error encountered, if any, is the benign
halt-with-no-value. -/
def jqFirstErrBenign : List JqOut → Bool
  | [] => true
  | .val _ :: t => jqFirstErrBenign t
  | .errHaltNoValue :: _ => true
  | .errRuntime :: _ => false

/-- Number of slots `buildSeqTerms` produces: adjacent runs of equal
terms collapse into one slot. -/
def seqSlotCountAux (last : TermT) : List TermT → Nat
  | [] => 0
  | a :: t => if a = last then seqSlotCountAux last t else 1 + seqSlotCountAux a t

def seqSlotCount : List TermT → Nat
  | [] => 0
  | a :: t => 1 + seqSlotCountAux a t

/-- A term compiler wired to reject the external kinds; the concrete
scenarios below use only Raw terms, which never reach the external
compilers. -/
def nmRaw : TermT → Except Err (String → Bool) :=
  TermT.newMatcher (fun _ => .error ()) (fun _ => .error ())

def rawT (s : String) : TermT := ⟨TermRaw, s⟩

/-- Fallback states for `getD` on construction results; the adjacent
theorems prove the constructions succeed, so these are never used. -/
def invFallback : InvState := { window := 0, terms := [] }

def seqFallback : SeqState := { window := 0, terms := [] }

/-- Scenario of claim C2 (spec end-to-end test 4): `InverseSeq`,
window 10, terms alpha/beta, one absolute reset of window 50. -/
def c2s0 : InvState :=
  (newInverseSeq nmRaw 10 [rawT "alpha", rawT "beta"]
    [⟨rawT "reset", 50, 0, 0, true⟩]).toOption.getD invFallback

def c2r1 : InvState × Hits := c2s0.scan ⟨1, "alpha", ""⟩

def c2r2 : InvState × Hits := c2r1.1.scan ⟨11, "beta", ""⟩

def c2r3 : InvState × Hits := c2r2.1.scan ⟨51, "noop", ""⟩

def c2r4 : InvState × Hits := c2r3.1.scan ⟨52, "noop", ""⟩

/-- Scenario of claim C6 (spec end-to-end test 2): `MatchSeq`,
window 10, terms alpha/beta, over-fire suppression. -/
def c6s0 : SeqState :=
  (newMatchSeq nmRaw 10 [rawT "alpha", rawT "beta"]).toOption.getD seqFallback

def c6r1 : SeqState × Hits := c6s0.scan ⟨1, "alpha", ""⟩

def c6r2 : SeqState × Hits := c6r1.1.scan ⟨2, "alpha", ""⟩

def c6r3 : SeqState × Hits := c6r2.1.scan ⟨3, "alpha", ""⟩

def c6r4 : SeqState × Hits := c6r3.1.scan ⟨4, "beta", ""⟩

/-- Failing input of claim C3: `MatchSeq`, window 10, pattern
`["a", "a"]` (one slot with a dupe), entries at 1 and 100. -/
def c3s0 : SeqState :=
  (newMatchSeq nmRaw 10 [rawT "a", rawT "a"]).toOption.getD seqFallback

def c3r1 : SeqState × Hits := c3s0.scan ⟨1, "a", ""⟩

def c3r2 : SeqState × Hits := c3r1.1.scan ⟨100, "a", ""⟩

/-- Second scenario for claim C4: `InverseSeq`, window 100, pattern
`["a", "b", "b"]`, one absolute reset of window 5 (`gcRight = 105`);
entries at 1 (`a`), 2 (`b`, partial dupe), 3 (`a`, overlap). -/
def c4s0 : InvState :=
  (newInverseSeq nmRaw 100 [rawT "a", rawT "b", rawT "b"]
    [⟨rawT "r", 5, 0, 0, true⟩]).toOption.getD invFallback

def c4r1 : InvState × Hits := c4s0.scan ⟨1, "a", ""⟩

def c4r2 : InvState × Hits := c4r1.1.scan ⟨2, "b", ""⟩

def c4r3 : InvState × Hits := c4r2.1.scan ⟨3, "a", ""⟩

/-- Concrete dupeMask-variant state with a completed frame `[1, 11]`
whose absolute reset window `1..51` has closed by clock 52. -/
def c1w2 : InvState2 :=
  { clock := 51, window := 10, gcMark := 61, gcLeft := 0, gcRight := 60,
    nActive := 2,
    terms := [⟨makeRawMatch "alpha", [⟨1, "alpha", ""⟩]⟩,
              ⟨makeRawMatch "beta", [⟨11, "beta", ""⟩]⟩],
    resets := [⟨makeRawMatch "reset", [], 50, 0, 0, true⟩] }

end LogMatch

namespace LogMatch

/-- Claim C5: for a non-empty anchor list (with the reset's anchor index
in range, as construction guarantees), `calcWindowA` computes exactly
the interval `(anchor_clock, anchor_clock + max width 0)` of the
specification formula. -/
theorem calcWindowA_eq_spec (r : ResetSlot) (anchors : List AnchorT)
    (hne : anchors ≠ []) :
    r.calcWindowA anchors = specResetInterval r anchors := by
  rcases r with ⟨m, obs, w, sl, an, abs⟩
  simp only [ResetSlot.calcWindowA, specResetInterval, if_neg hne, Prod.mk.injEq,
    true_and]
  cases abs <;> simp only [if_true, if_false, Bool.false_eq_true] <;>
    rw [max_def] <;> split <;> split <;> omega

/-- Witness for C5 at a concrete reset and anchor list. -/
theorem calcWindowA_eq_spec_witness :
    (⟨fun _ => false, [], 50, 0, 0, true⟩ : ResetSlot).calcWindowA
        [⟨1, 0, 0⟩, ⟨11, 1, 0⟩] =
      specResetInterval ⟨fun _ => false, [], 50, 0, 0, true⟩ [⟨1, 0, 0⟩, ⟨11, 1, 0⟩] :=
  calcWindowA_eq_spec _ _ (by simp)

/-- Claim C10: `NewMatcher` rejects an empty term value with
`ErrTermEmpty` before looking at the kind, so even an unrecognised kind
with an empty value yields `ErrTermEmpty` rather than `ErrTermType`. -/
theorem new_matcher_empty_value (jq regex : CompileFn) (tt : TermT)
    (h : tt.value = "") : tt.newMatcher jq regex = .error .termEmpty := by
  unfold TermT.newMatcher
  rw [if_pos h]

/-- Witness for C10 at an empty term of the unrecognised kind 17. -/
theorem new_matcher_empty_value_witness :
    TermT.newMatcher (fun _ => .error ()) (fun _ => .error ()) ⟨⟨17⟩, ""⟩ =
      .error .termEmpty :=
  new_matcher_empty_value _ _ _ rfl

/-- Claim C8: `Eval(v)` with `v` at or behind the current clock returns
empty hits and leaves the state untouched, for the inverse sequence
matcher (guarded), and unconditionally for the sequence, set and single
matchers, whose `Eval` is edge-triggered and never mutates. -/
theorem eval_noop_when_clock_behind :
    (∀ (s : InvState) (v : Int), v ≤ s.clock → s.evalGo v = (s, {})) ∧
    (∀ (s : SeqState) (v : Int), s.evalGo v = (s, {})) ∧
    (∀ (s : SetState) (v : Int), s.evalGo v = (s, {})) ∧
    (∀ (s : SingleState) (v : Int), s.evalGo v = (s, {})) := by
  refine ⟨fun s v h => ?_, fun _ _ => rfl, fun _ _ => rfl, fun _ _ => rfl⟩
  unfold InvState.evalGo
  rw [if_pos h]

/-- Witness for C8 at concrete states and clock 0. -/
theorem eval_noop_when_clock_behind_witness :
    InvState.evalGo c2s0 0 = (c2s0, {}) ∧
    SeqState.evalGo c6s0 0 = (c6s0, {}) ∧
    SetState.evalGo ⟨0, 10, disableGC, [], 0, fun _ => 0⟩ 0 =
      (⟨0, 10, disableGC, [], 0, fun _ => 0⟩, {}) ∧
    SingleState.evalGo ⟨0, fun _ => false⟩ 0 = (⟨0, fun _ => false⟩, {}) :=
  ⟨eval_noop_when_clock_behind.1 c2s0 0 (by decide),
   eval_noop_when_clock_behind.2.1 c6s0 0,
   eval_noop_when_clock_behind.2.2.1 _ 0,
   eval_noop_when_clock_behind.2.2.2 _ 0⟩

/-- The iteration loop of `_makeJqMatch`, with its accumulator made
explicit: the result is the accumulator or any truthy output before the
first error, provided the first error (if any) is a benign
halt-with-no-value. -/
theorem jqIterate_spec (outs : List JqOut) (m : Bool) :
    jqIterate outs m =
      ((m || (jqValuesBeforeErr outs).any JqOut.truthyOut) && jqFirstErrBenign outs) := by
  induction outs generalizing m with
  | nil => simp [jqIterate, jqValuesBeforeErr, jqFirstErrBenign]
  | cons a t ih =>
    cases a <;>
      simp [jqIterate, jqValuesBeforeErr, jqFirstErrBenign, ih, JqOut.truthyOut,
        Bool.or_assoc]

/-- Counterexample for C9: with a truthy output followed by a runtime
error the predicate returns `false` although a truthy output exists
(refuting the "iff at least one truthy output" reading), and with a
truthy output followed by a halt-with-no-value it returns `true`
(refuting "a jq halt with no value makes the predicate return
false"). -/
theorem jq_claim_counterexample :
    jqMatchRun true [.val (.bool true), .errRuntime] = false ∧
    jqClaimAnyTruthy [.val (.bool true), .errRuntime] = true ∧
    jqMatchRun true [.val (.bool true), .errHaltNoValue] = true := by
  exact ⟨rfl, rfl, rfl⟩

/-- Claim C9 as amended: the predicate is `true` iff the document
parsed, some output strictly before the first error is truthy
(non-null; a boolean must be `true`), and the first error — if the
iteration reaches one — is a halt with no value.  A runtime error
forces `false` even after a truthy output, while a halt with no value
merely stops the iteration, preserving an earlier truthy match. -/
theorem jq_match_amended (parseOk : Bool) (outs : List JqOut) :
    jqMatchRun parseOk outs =
      (parseOk && ((jqValuesBeforeErr outs).any JqOut.truthyOut &&
        jqFirstErrBenign outs)) := by
  cases parseOk <;> simp [jqMatchRun, jqIterate_spec]

/-- Claim C6: sequence matcher, window 10, terms alpha/beta; scanning
(1,alpha)(2,alpha)(3,alpha)(4,beta) yields no hit on the first three
scans and exactly one hit, group `[1, 4]`, on the fourth. -/
theorem seq_overfire_scenario :
    (newMatchSeq nmRaw 10 [rawT "alpha", rawT "beta"]).toOption = some c6s0 ∧
    c6r1.2.cnt = 0 ∧ c6r2.2.cnt = 0 ∧ c6r3.2.cnt = 0 ∧
    c6r4.2.cnt = 1 ∧ c6r4.2.logs.map (fun e => e.timestamp) = [1, 4] :=
  ⟨rfl, rfl, rfl, rfl, rfl, rfl⟩

/-- Claim C3 fails on the code: `MatchSeq` with window 10 and the
duplicate pattern `["a", "a"]` emits, on scanning (1,"a") then
(100,"a"), a hit whose group `[1, 100]` spans 99 > 10.  Because
`maybeGC` skips collection while `nActive = 0`, the partially-filled
dupe slot is never pruned against the window. -/
theorem seq_window_violation_at_failing_input :
    c3r1.2.cnt = 0 ∧ c3r2.2.cnt = 1 ∧
    c3r2.2.logs.map (fun e => e.timestamp) = [1, 100] ∧
    (100 : Int) - 1 > c3s0.window :=
  ⟨rfl, rfl, rfl, by decide⟩

/-- Claim C2: the InvSeq absolute-reset scenario — window 10, terms
alpha/beta, reset window 50 absolute.  Scanning (1,alpha) (11,beta)
(51,noop) (52,noop): no hit on the first three scans (the reset window
1..51 is still open), exactly one hit `[1, 11]` on the fourth; and in
general, whenever the `_eval` loop head reports an open reset window
(`wait`), the loop returns with no additional hits and the state
unchanged — the frame is deferred to a later `Scan` or `Eval`. -/
theorem invseq_deferred_reset_scenario :
    (newInverseSeq nmRaw 10 [rawT "alpha", rawT "beta"]
        [⟨rawT "reset", 50, 0, 0, true⟩]).toOption = some c2s0 ∧
    c2r1.2.cnt = 0 ∧ c2r2.2.cnt = 0 ∧ c2r3.2.cnt = 0 ∧
    c2r4.2.cnt = 1 ∧ c2r4.2.logs.map (fun e => e.timestamp) = [1, 11] ∧
    ∀ (c : Int) (fuel : Nat) (s : InvState) (h : Hits),
      s.evalStep c = .wait → evalLoop c fuel s h = (s, h) := by
  refine ⟨rfl, rfl, rfl, rfl, rfl, rfl, fun c fuel s h hw => ?_⟩
  cases fuel with
  | zero => rfl
  | succ n => simp [evalLoop, hw]

/-- Witness for C2's deferral clause at the concrete deferred state
after scanning (51,noop). -/
theorem invseq_deferred_reset_scenario_witness :
    evalLoop 51 5 c2r3.1 {} = (c2r3.1, {}) :=
  invseq_deferred_reset_scenario.2.2.2.2.2.2 51 5 c2r3.1 {} rfl

/-- Every anchor produced by the dupe-expanded anchor walk carries a
non-negative slot index. -/
theorem mkAnchorsAux_term_nonneg (dm : Int → Nat) :
    ∀ (l : List TermSlot) (i : Nat), ∀ a ∈ mkAnchorsAux dm i l, 0 ≤ a.term := by
  intro l
  induction l with
  | nil => intro i a ha; simp [mkAnchorsAux] at ha
  | cons sl t ih =>
    intro i a ha
    simp only [mkAnchorsAux, List.mem_append, List.mem_map, List.mem_range] at ha
    rcases ha with ⟨j, _, rfl⟩ | h
    · exact Int.ofNat_nonneg i
    · exact ih (i + 1) a h

/-- A pass result of the reset walk (`term < 0`, `clock ≤ 0`) means
that for every reset in the list, its interval has fully closed
(`stop < clock`) and every retained observation lies strictly outside
the closed interval `[start, stop]`. -/
theorem checkResetAux_pass (anchors : List AnchorT)
    (hA : ∀ a ∈ anchors, 0 ≤ a.term) (clock : Int) :
    ∀ rs : List ResetSlot,
      (checkResetAux anchors clock rs).term < 0 →
      (checkResetAux anchors clock rs).clock ≤ 0 →
      ∀ r ∈ rs, (r.calcWindowA anchors).2 < clock ∧
        ∀ ts ∈ r.observed,
          ts < (r.calcWindowA anchors).1 ∨ (r.calcWindowA anchors).2 < ts := by
  intro rs
  induction rs with
  | nil => intro _ _ r hr; simp at hr
  | cons r0 rest ih =>
    intro h1 h2 r hr
    by_cases hobs : r0.observed.any (fun ts =>
        decide ((r0.calcWindowA anchors).1 ≤ ts) &&
        decide (ts ≤ (r0.calcWindowA anchors).2)) = true
    · exfalso
      have hres : checkResetAux anchors clock (r0 :: rest) =
          anchors.getD r0.anchor default := by
        simp only [checkResetAux]
        rw [if_pos hobs]
      rw [hres] at h1
      have : 0 ≤ (anchors.getD r0.anchor default).term := by
        by_cases hlen : r0.anchor < anchors.length
        · have hmem : anchors.getD r0.anchor default ∈ anchors := by
            rw [List.getD_eq_getElem?_getD, List.getElem?_eq_getElem hlen]
            exact List.getElem_mem hlen
          exact hA _ hmem
        · rw [List.getD_eq_default _ _ (le_of_not_lt hlen)]
          decide
      omega
    · by_cases hfut : (r0.calcWindowA anchors).2 ≥ clock
      · exfalso
        have hres : checkResetAux anchors clock (r0 :: rest) =
            ⟨(r0.calcWindowA anchors).2 - clock + 1, -1, 0⟩ := by
          simp only [checkResetAux]
          rw [if_neg (by simpa using hobs), if_pos hfut]
        rw [hres] at h2
        simp only at h2
        omega
      · have hres : checkResetAux anchors clock (r0 :: rest) =
            checkResetAux anchors clock rest := by
          simp only [checkResetAux]
          rw [if_neg (by simpa using hobs), if_neg hfut]
        rcases List.mem_cons.mp hr with rfl | hr'
        · refine ⟨lt_of_not_ge hfut, fun ts hts => ?_⟩
          simp only [List.any_eq_true, not_exists, not_and, Bool.and_eq_true,
            decide_eq_true_eq] at hobs
          push_neg at hobs
          by_contra hcon
          push_neg at hcon
          have := hobs ts hts
          omega
        · rw [hres] at h1 h2
          exact ih h1 h2 r hr'

/-- Pass result of the dupeMask variant's reset walk. -/
theorem checkReset2Aux_pass (stamps : List Int) (clock : Int) :
    ∀ rs : List ResetSlot,
      (checkReset2Aux stamps clock rs).2 = none →
      (checkReset2Aux stamps clock rs).1 ≤ 0 →
      ∀ r ∈ rs, (r.calcWindow stamps).2 < clock ∧
        ∀ ts ∈ r.observed,
          ts < (r.calcWindow stamps).1 ∨ (r.calcWindow stamps).2 < ts := by
  intro rs
  induction rs with
  | nil => intro _ _ r hr; simp at hr
  | cons r0 rest ih =>
    intro h1 h2 r hr
    by_cases hobs : r0.observed.any (fun ts =>
        decide ((r0.calcWindow stamps).1 ≤ ts) &&
        decide (ts ≤ (r0.calcWindow stamps).2)) = true
    · exfalso
      have hres : checkReset2Aux stamps clock (r0 :: rest) = (0, some r0.anchor) := by
        simp only [checkReset2Aux]
        rw [if_pos hobs]
      rw [hres] at h1
      simp at h1
    · by_cases hfut : (r0.calcWindow stamps).2 ≥ clock
      · exfalso
        have hres : checkReset2Aux stamps clock (r0 :: rest) =
            ((r0.calcWindow stamps).2 - clock + 1, none) := by
          simp only [checkReset2Aux]
          rw [if_neg (by simpa using hobs), if_pos hfut]
        rw [hres] at h2
        simp only at h2
        omega
      · have hres : checkReset2Aux stamps clock (r0 :: rest) =
            checkReset2Aux stamps clock rest := by
          simp only [checkReset2Aux]
          rw [if_neg (by simpa using hobs), if_neg hfut]
        rcases List.mem_cons.mp hr with rfl | hr'
        · refine ⟨lt_of_not_ge hfut, fun ts hts => ?_⟩
          simp only [List.any_eq_true, not_exists, not_and, Bool.and_eq_true,
            decide_eq_true_eq] at hobs
          push_neg at hobs
          by_contra hcon
          push_neg at hcon
          have := hobs ts hts
          omega
        · rw [hres] at h1 h2
          exact ih h1 h2 r hr'

/-- Claim C1: in both inverse-sequence variants, whenever the `_eval`
loop head decides to fire (emit a hit), every reset's interval over the
frame's anchors has fully closed (`stop < clock`) and every retained
reset observation lies strictly outside the closed interval
`[start, stop]` — so an observation at either boundary (or inside)
prevents the fire. -/
theorem inverse_reset_invalidation :
    (∀ (s : InvState) (c : Int), s.evalStep c = .fire →
      ∀ r ∈ s.resets, (r.calcWindowA s.mkAnchors).2 < c ∧
        ∀ ts ∈ r.observed,
          ts < (r.calcWindowA s.mkAnchors).1 ∨ (r.calcWindowA s.mkAnchors).2 < ts) ∧
    (∀ (s : InvState2) (c : Int), s.evalStep c = .fire →
      ∀ r ∈ s.resets, (r.calcWindow s.stamps).2 < c ∧
        ∀ ts ∈ r.observed,
          ts < (r.calcWindow s.stamps).1 ∨ (r.calcWindow s.stamps).2 < ts) := by
  constructor
  · intro s c hf r hr
    have hA := mkAnchorsAux_term_nonneg s.dupeMap s.terms 0
    simp only [InvState.evalStep] at hf
    split_ifs at hf with hna hwin hemp hvt hck
    · rw [List.isEmpty_iff] at hemp
      rw [hemp] at hr
      simp at hr
    · refine checkResetAux_pass s.mkAnchors hA c s.resets ?_ ?_ r hr
      · show (s.checkReset c).term < 0
        simp only [AnchorT.validTerm, decide_eq_true_eq] at hvt
        omega
      · show (s.checkReset c).clock ≤ 0
        omega
  · intro s c hf r hr
    simp only [InvState2.evalStep] at hf
    split at hf
    · cases hf
    · split at hf
      · cases hf
      · split at hf
        · next hemp =>
            rw [List.isEmpty_iff] at hemp
            rw [hemp] at hr
            simp at hr
        · split at hf
          · cases hf
          · next hnone =>
              split at hf
              · cases hf
              · next hck =>
                  refine checkReset2Aux_pass s.stamps c s.resets hnone ?_ r hr
                  show (s.checkReset c).1 ≤ 0
                  omega

/-- Witness for C1 at the concrete deferred frame of the C2 scenario
once the reset window has closed (clock 52), and at the analogous
dupeMask-variant state. -/
theorem inverse_reset_invalidation_witness :
    ((⟨makeRawMatch "reset", [], 50, 0, 0, true⟩ : ResetSlot).calcWindowA
      c2r3.1.mkAnchors).2 < 52 ∧
    ((⟨makeRawMatch "reset", [], 50, 0, 0, true⟩ : ResetSlot).calcWindow
      c1w2.stamps).2 < 52 := by
  constructor
  · exact (inverse_reset_invalidation.1 c2r3.1 52 rfl _ (by
      show _ ∈ [(⟨makeRawMatch "reset", [], 50, 0, 0, true⟩ : ResetSlot)]
      exact List.mem_singleton.mpr rfl)).1
  · exact (inverse_reset_invalidation.2 c1w2 52 rfl _ (by
      show _ ∈ [(⟨makeRawMatch "reset", [], 50, 0, 0, true⟩ : ResetSlot)]
      exact List.mem_singleton.mpr rfl)).1

theorem sortedTs_tail {a : Int} {t : List Int} (h : sortedTs (a :: t) = true) :
    sortedTs t = true := by
  cases t with
  | nil => rfl
  | cons b t' =>
    simp only [sortedTs, Bool.and_eq_true] at h
    exact h.2

theorem sortedTs_head_le {a : Int} {t : List Int} (h : sortedTs (a :: t) = true) :
    ∀ x ∈ t, a ≤ x := by
  induction t generalizing a with
  | nil => simp
  | cons b t' ih =>
    simp only [sortedTs, Bool.and_eq_true, decide_eq_true_eq] at h
    intro x hx
    rcases List.mem_cons.mp hx with rfl | hx'
    · exact h.1
    · exact le_trans h.1 (ih h.2 x hx')

/-- After dropping the leading elements below `d` from a sorted list,
everything that remains is at least `d` (the effect of the
binary-search pruning in `GarbageCollect`). -/
theorem drop_firstGeIdx_ge (d : Int) :
    ∀ l : List Int, sortedTs l = true → ∀ x ∈ l.drop (firstGeIdx l d), d ≤ x := by
  intro l
  induction l with
  | nil => simp
  | cons a t ih =>
    intro hs x hx
    by_cases had : a < d
    · rw [firstGeIdx, if_pos had, List.drop_succ_cons] at hx
      exact ih (sortedTs_tail hs) x hx
    · rw [firstGeIdx, if_neg had, List.drop_zero] at hx
      push_neg at had
      rcases List.mem_cons.mp hx with rfl | hx'
      · exact had
      · exact le_trans had (sortedTs_head_le hs x hx')

theorem countLeadingOld_eq (d : Int) :
    ∀ l : List LogEntry,
      countLeadingOld l d = firstGeIdx (l.map fun e => e.timestamp) d := by
  intro l
  induction l with
  | nil => rfl
  | cons a t ih =>
    simp only [countLeadingOld, List.map_cons, firstGeIdx, ih]

/-- Entry-level version of the pruning bound. -/
theorem drop_countLeadingOld_ge (d : Int) (l : List LogEntry)
    (hs : sortedTs (l.map fun e => e.timestamp) = true) :
    ∀ e ∈ l.drop (countLeadingOld l d), d ≤ e.timestamp := by
  intro e he
  refine drop_firstGeIdx_ge d (l.map fun e => e.timestamp) hs e.timestamp ?_
  rw [← List.map_drop, ← countLeadingOld_eq]
  exact List.mem_map_of_mem _ he

/-- `miniGC` never touches the reset slots. -/
theorem miniGC_resets (s : InvState) : (s.miniGC).resets = s.resets := by
  rcases hT : s.terms with _ | ⟨sl0, rest⟩
  · simp [InvState.miniGC, hT]
  · rcases hA : sl0.asserts with _ | ⟨e0, tl⟩
    · simp [InvState.miniGC, hT, hA, InvState.resetAll]
    · simp [InvState.miniGC, hT, hA]

/-- `miniGC` either preserves slot 0's asserts or clears them. -/
theorem miniGC_zeroAsserts (s : InvState) :
    (s.miniGC).zeroAsserts = s.zeroAsserts ∨ (s.miniGC).zeroAsserts = [] := by
  rcases hT : s.terms with _ | ⟨sl0, rest⟩
  · left
    simp [InvState.miniGC, hT]
  · rcases hA : sl0.asserts with _ | ⟨e0, tl⟩
    · right
      simp [InvState.miniGC, hT, hA, InvState.resetAll, InvState.zeroAsserts, resetSlot]
    · left
      simp [InvState.miniGC, hT, hA, InvState.zeroAsserts]

/-- Slot 0's asserts after the pruning step of `GarbageCollect`. -/
theorem shiftLeft_zero_zeroAsserts (s : InvState) (cnt : Nat) :
    InvState.zeroAsserts { s with terms := shiftLeft s.terms 0 cnt } =
      s.zeroAsserts.drop cnt := by
  rcases hT : s.terms with _ | ⟨sl0, rest⟩
  · simp [InvState.zeroAsserts, shiftLeft, modifySlot, hT]
  · simp [InvState.zeroAsserts, shiftLeft, modifySlot, hT, shiftLeftSlot]

/-- Counterexample for C4: (a) in the all-hot-with-resets defer case
(the C2 scenario's pending frame, GC at clock 1000 with
`gcRight = 60`), slot 0 still retains its assert at timestamp 1 even
though `1 < 1000 − 60`; (b) even on the normal path (the `[a, b, b]`
scenario, GC at clock 108 with `gcRight = 105`), the partially-filled
active dupe slot retains its assert at timestamp 2 < 108 − 105. -/
theorem inverse_gc_retention_counterexample :
    ((c2r3.1.garbageCollect 1000).zeroAsserts.map fun e => e.timestamp) = [1] ∧
    (1 : Int) < 1000 - c2r3.1.gcRight ∧
    (((c4r3.1.garbageCollect 108).terms.getD 1 ⟨fun _ => false, []⟩).asserts.map
      fun e => e.timestamp) = [2] ∧
    (2 : Int) < 108 - c4r3.1.gcRight ∧
    ¬(c4r3.1.nActive = c4r3.1.terms.length ∧ c4r3.1.resets.isEmpty = false) :=
  ⟨rfl, by decide, rfl, by decide, by decide⟩

/-- Claim C4 as amended: on the normal path (not every slot hot with
resets present), `GarbageCollect(c)` leaves no assert in slot 0 with
timestamp below `c − gcRight` and no reset observation below
`c − gcRight − gcLeft`; slots other than 0 (in particular the
partially-filled active slot) are pruned only relative to slot 0 and
may retain older asserts, and when every slot is hot and resets exist,
collection defers entirely, only disabling the GC mark. -/
theorem inverse_gc_amended :
    (∀ (s : InvState) (c : Int),
      ¬(s.nActive = s.terms.length ∧ s.resets.isEmpty = false) →
      sortedTs (s.zeroAsserts.map fun e => e.timestamp) = true →
      (∀ r ∈ s.resets, sortedTs r.observed = true) →
      (∀ e ∈ (s.garbageCollect c).zeroAsserts, c - s.gcRight ≤ e.timestamp) ∧
      (∀ r ∈ (s.garbageCollect c).resets, ∀ ts ∈ r.observed,
        c - s.gcRight - s.gcLeft ≤ ts)) ∧
    (∀ (s : InvState) (c : Int),
      s.nActive = s.terms.length → s.resets.isEmpty = false →
      s.garbageCollect c = { s with gcMark := disableGC }) := by
  constructor
  · intro s c hnorm hs0 hsr
    have hgc : s.garbageCollect c = s.gcNormal c := by
      unfold InvState.garbageCollect
      rw [if_neg hnorm]
    rw [hgc]
    constructor
    · intro e he
      have he' : e ∈ ((s.gcPruneZero c).miniGC).zeroAsserts := he
      rcases miniGC_zeroAsserts (s.gcPruneZero c) with hz | hz
      · rw [hz, InvState.gcPruneZero, shiftLeft_zero_zeroAsserts] at he'
        exact drop_countLeadingOld_ge (c - s.gcRight) s.zeroAsserts hs0 e he'
      · rw [hz] at he'
        cases he'
    · intro r' hr' ts hts
      have hres : (s.gcNormal c).resets = s.resets.map fun r =>
          { r with observed :=
              r.observed.drop (firstGeIdx r.observed (c - s.gcRight - s.gcLeft)) } := by
        show ((s.gcPruneZero c).miniGC).resets.map _ = _
        rw [miniGC_resets]
        rfl
      rw [hres] at hr'
      rcases List.mem_map.mp hr' with ⟨r, hr, rfl⟩
      simp only at hts
      have := drop_firstGeIdx_ge (c - s.gcRight - s.gcLeft) r.observed (hsr r hr) ts hts
      omega
  · intro s c h1 h2
    unfold InvState.garbageCollect
    rw [if_pos ⟨h1, h2⟩]

/-- Witness for C4's amended bound at the `[a, b, b]` scenario, GC at
clock 108: the surviving slot-0 assert sits at timestamp 3 ≥ 108 − 105. -/
theorem inverse_gc_amended_witness :
    (108 : Int) - c4r3.1.gcRight ≤ (⟨3, "a", ""⟩ : LogEntry).timestamp :=
  (inverse_gc_amended.1 c4r3.1 108 (by decide) (by decide) (by decide)).1
    ⟨3, "a", ""⟩ (by decide)

/-- `NewMatcher` can fail only with `TermEmpty`, `TermCompile` or
`TermType`; never with `TooManyTerms`. -/
theorem newMatcher_ne_tooMany (jq regex : CompileFn) (t : TermT) :
    TermT.newMatcher jq regex t ≠ .error .tooManyTerms := by
  intro h
  unfold TermT.newMatcher at h
  split_ifs at h
  all_goals
    first
    | simp at h
    | (rcases hjq : jq t.value with e | m <;> rw [hjq] at h <;> simp at h)
    | (rcases hre : regex t.value with e | m <;> rw [hre] at h <;> simp at h)

/-- An error out of the term-collapsing fold is always an error of the
underlying compiler on one of the supplied terms. -/
theorem buildSeqTermsAux_error (nm : TermT → Except Err (String → Bool)) :
    ∀ (l : List TermT) (i : Int) (last : TermT) (slots : List TermSlot)
      (dm : Int → Nat) (dsum : Nat) (e : Err),
      buildSeqTermsAux nm l i last slots dm dsum = .error e →
      ∃ t ∈ l, nm t = .error e := by
  intro l
  induction l with
  | nil =>
    intro i last slots dm dsum e h
    simp [buildSeqTermsAux] at h
  | cons a t ih =>
    intro i last slots dm dsum e h
    simp only [buildSeqTermsAux] at h
    by_cases hc : i = -1 ∨ a ≠ last
    · rw [if_pos hc] at h
      rcases hnm : nm a with e' | m
      · rw [hnm] at h
        simp only [Except.error.injEq] at h
        exact ⟨a, List.mem_cons_self a t, by rw [hnm, h]⟩
      · rw [hnm] at h
        rcases ih _ _ _ _ _ _ h with ⟨t', ht', hnt'⟩
        exact ⟨t', List.mem_cons_of_mem a ht', hnt'⟩
    · rw [if_neg hc] at h
      rcases ih _ _ _ _ _ _ h with ⟨t', ht', hnt'⟩
      exact ⟨t', List.mem_cons_of_mem a ht', hnt'⟩

/-- The fold creates at most one slot per supplied term. -/
theorem buildSeqTermsAux_length_le (nm : TermT → Except Err (String → Bool)) :
    ∀ (l : List TermT) (i : Int) (last : TermT) (slots : List TermSlot)
      (dm : Int → Nat) (dsum : Nat) (res : List TermSlot × (Int → Nat) × Nat),
      buildSeqTermsAux nm l i last slots dm dsum = .ok res →
      res.1.length ≤ slots.length + l.length := by
  intro l
  induction l with
  | nil =>
    intro i last slots dm dsum res h
    simp only [buildSeqTermsAux, Except.ok.injEq] at h
    rw [← h]
    simp
  | cons a t ih =>
    intro i last slots dm dsum res h
    simp only [buildSeqTermsAux] at h
    by_cases hc : i = -1 ∨ a ≠ last
    · rw [if_pos hc] at h
      rcases hnm : nm a with e' | m
      · rw [hnm] at h; cases h
      · rw [hnm] at h
        have := ih _ _ _ _ _ _ h
        simp only [List.length_append, List.length_cons, List.length_nil,
          List.length_singleton] at this ⊢
        omega
    · rw [if_neg hc] at h
      have := ih _ _ _ _ _ _ h
      simp only [List.length_cons] at this ⊢
      omega

/-- When every term compiles, the fold succeeds and produces exactly
one slot per adjacent-distinct run. -/
theorem buildSeqTermsAux_ok_of_all (nm : TermT → Except Err (String → Bool)) :
    ∀ (l : List TermT) (i : Int), 0 ≤ i → ∀ (last : TermT) (slots : List TermSlot)
      (dm : Int → Nat) (dsum : Nat),
      (l.all fun t => (nm t).toOption.isSome) = true →
      ∃ slots' dm' dsum',
        buildSeqTermsAux nm l i last slots dm dsum = .ok (slots', dm', dsum') ∧
        slots'.length = slots.length + seqSlotCountAux last l := by
  intro l
  induction l with
  | nil =>
    intro i hi last slots dm dsum _
    exact ⟨slots, dm, dsum, rfl, by simp [seqSlotCountAux]⟩
  | cons a t ih =>
    intro i hi last slots dm dsum hall
    simp only [List.all_cons, Bool.and_eq_true] at hall
    obtain ⟨ha, ht⟩ := hall
    rcases hnm : nm a with e | m
    · rw [hnm] at ha
      simp [Except.toOption] at ha
    · by_cases hae : a = last
      · have hc : ¬(i = -1 ∨ a ≠ last) := by
          push_neg
          exact ⟨by omega, by simpa using hae⟩
        rcases ih i hi last slots (fun j => if j = i then dm j + 1 else dm j)
            (dsum + 1) ht with ⟨s', d', ds', heq, hlen⟩
        refine ⟨s', d', ds', ?_, ?_⟩
        · simp only [buildSeqTermsAux]
          rw [if_neg hc]
          exact heq
        · rw [hlen]
          simp [seqSlotCountAux, if_pos hae]
      · have hc : i = -1 ∨ a ≠ last := Or.inr hae
        rcases ih (i + 1) (by omega) a (slots ++ [⟨m, []⟩]) dm dsum ht with
          ⟨s', d', ds', heq, hlen⟩
        refine ⟨s', d', ds', ?_, ?_⟩
        · simp only [buildSeqTermsAux]
          rw [if_pos hc, hnm]
          exact heq
        · rw [hlen]
          simp only [List.length_append, List.length_cons, List.length_nil,
            seqSlotCountAux, if_neg hae]
          omega

/-- Counterexample for C7: 65 identical supplied terms exceed 64, yet
`NewMatchSeq` succeeds (they collapse into a single slot), so the
TooManyTerms check is not applied to the pre-collapse count. -/
theorem seq_too_many_terms_counterexample :
    (newMatchSeq nmRaw 10 (List.replicate 65 (rawT "a"))).toOption.isSome = true ∧
    maxTerms < (List.replicate 65 (rawT "a")).length :=
  ⟨rfl, by decide⟩

/-- Claim C7 as amended: with at most 64 supplied terms neither
constructor can return TooManyTerms; `buildSeqTerms` (used by
`NewMatchSeq` and the dupe-aware `NewInverseSeq`) returns TooManyTerms
exactly when the slot count after adjacent-duplicate collapsing exceeds
64 (given every term compiles); and only the dupeMask `NewInverseSeq`
variant rejects on the raw supplied count before collapsing. -/
theorem seq_too_many_terms_amended :
    (∀ (jq regex : CompileFn) (terms : List TermT),
      terms.length ≤ maxTerms →
      buildSeqTerms (TermT.newMatcher jq regex) terms ≠ .error .tooManyTerms) ∧
    (∀ (nm : TermT → Except Err (String → Bool)) (terms : List TermT),
      (terms.all fun t => (nm t).toOption.isSome) = true →
      (buildSeqTerms nm terms = .error .tooManyTerms ↔ maxTerms < seqSlotCount terms)) ∧
    (∀ (nm : TermT → Except Err (String → Bool)) (window : Int)
      (terms : List TermT) (resets : List ResetT),
      maxTerms < terms.length →
      newInverseSeq2 nm window terms resets = .error .tooManyTerms) := by
  refine ⟨?_, ?_, ?_⟩
  · intro jq regex terms hle h
    unfold buildSeqTerms at h
    by_cases hemp : terms.isEmpty
    · rw [if_pos hemp] at h
      simp at h
    · rw [if_neg hemp] at h
      rcases haux : buildSeqTermsAux (TermT.newMatcher jq regex) terms (-1) default []
          (fun _ => 0) 0 with e | trip
      · rw [haux] at h
        simp only [Except.error.injEq] at h
        rcases buildSeqTermsAux_error _ _ _ _ _ _ _ _ haux with ⟨t, _, hnt⟩
        rw [h] at hnt
        exact newMatcher_ne_tooMany jq regex t hnt
      · obtain ⟨slots, dm, dsum⟩ := trip
        rw [haux] at h
        simp only at h
        by_cases hgt : slots.length > maxTerms
        · have hb := buildSeqTermsAux_length_le _ _ _ _ _ _ _ _ haux
          simp only [List.length_nil, Nat.zero_add] at hb
          exact absurd hle (by omega)
        · rw [if_neg hgt] at h
          cases h
  · intro nm terms hall
    rcases terms with _ | ⟨a, t⟩
    · constructor
      · intro h
        unfold buildSeqTerms at h
        simp at h
      · intro h
        simp [seqSlotCount] at h
    · simp only [List.all_cons, Bool.and_eq_true] at hall
      obtain ⟨ha, ht⟩ := hall
      rcases hnm : nm a with e | m
      · rw [hnm] at ha
        simp [Except.toOption] at ha
      · rcases buildSeqTermsAux_ok_of_all nm t 0 (by omega) a [⟨m, []⟩]
            (fun _ => 0) 0 ht with ⟨s', d', ds', heq, hlen⟩
        have hstep : buildSeqTermsAux nm (a :: t) (-1) default [] (fun _ => 0) 0 =
            buildSeqTermsAux nm t 0 a [⟨m, []⟩] (fun _ => 0) 0 := by
          simp only [buildSeqTermsAux]
          rw [if_pos (Or.inl trivial), hnm]
          norm_num
        have hbuild : buildSeqTerms nm (a :: t) =
            (if s'.length > maxTerms then Except.error Err.tooManyTerms
             else .ok (s', (if ds' > 0 then fun j => if j = -1 then (ds' : Nat) else d' j
               else d'), decide (ds' > 0))) := by
          unfold buildSeqTerms
          rw [if_neg (by simp), hstep, heq]
        have hcount : seqSlotCount (a :: t) = s'.length := by
          simp [seqSlotCount, hlen]
        constructor
        · intro h
          rw [hbuild] at h
          by_cases hgt : s'.length > maxTerms
          · omega
          · rw [if_neg hgt] at h
            cases h
        · intro h
          rw [hbuild, if_pos (by omega)]
  · intro nm window terms resets hgt
    unfold newInverseSeq2
    rw [if_pos hgt]

/-- Witness for C7's amended limits: 64 distinct-slot terms are fine,
65 identical terms collapse to one slot and are fine for
`buildSeqTerms` (and its TooManyTerms verdict matches the collapsed
count of 1), while the dupeMask variant rejects the same 65 terms. -/
theorem seq_too_many_terms_amended_witness :
    buildSeqTerms nmRaw (List.replicate 64 (rawT "a")) ≠ .error .tooManyTerms ∧
    (buildSeqTerms nmRaw (List.replicate 65 (rawT "a")) = .error .tooManyTerms ↔
      maxTerms < seqSlotCount (List.replicate 65 (rawT "a"))) ∧
    newInverseSeq2 nmRaw 10 (List.replicate 65 (rawT "a")) [] = .error .tooManyTerms :=
  ⟨seq_too_many_terms_amended.1 (fun _ => .error ()) (fun _ => .error ()) _ (by decide),
   seq_too_many_terms_amended.2.1 nmRaw _ (by decide),
   seq_too_many_terms_amended.2.2 nmRaw 10 _ [] (by decide)⟩

end LogMatch
